import Mathlib

/-!
Verification development for the geodesic circle/antipode kernel of the
MAPPME repository (source: `src/k.py`).

The kernel consists of four functions:
* `normalize_lon` — maps a longitude into `[-180, 180)` via Python's
  non-negative `%` operator;
* `antipode` — `(lat, lon) ↦ (-lat, normalize_lon (lon + 180))`;
* `destination_point` — the standard spherical direct-geodesic formulas
  over a sphere of radius `R = 6371000` meters;
* `circle_polygon_coords` — traces a closed ring of `n_points + 1`
  destination points with a seam-unwrapping adjustment, followed by an
  unreachable second loop after an unconditional `return`.

The embedding models Python float arithmetic by exact arithmetic:
the purely algebraic layer (`normalize_lon`, `antipode`) is stated over any
linear ordered field with a floor, so it can be evaluated on `ℚ`, while the
trigonometric layer lives over `ℝ`.  Python's `ZeroDivisionError` at
`step = 360.0 / n_points` for `n_points = 0` is modeled by an `Option`
result: `none` exactly when the division fails.
-/

/-- Python's `((lon + 180) % 360) - 180` from `normalize_lon` in `src/k.py`.
For a positive modulus, Python's `%` is the mathematical non-negative
remainder `x - 360 * ⌊x / 360⌋`. -/
def normalize_lon {K : Type} [LinearOrderedField K] [FloorRing K] (lon : K) : K :=
  ((lon + 180) - 360 * (⌊(lon + 180) / 360⌋ : ℤ)) - 180

/-- `antipode` from `src/k.py`: latitude flips sign, longitude is shifted by
180 degrees and normalized. -/
def antipode {K : Type} [LinearOrderedField K] [FloorRing K] (lat lon : K) : K × K :=
  (-lat, normalize_lon (lon + 180))

section NormalizeLemmas

variable {K : Type} [LinearOrderedField K] [FloorRing K]

theorem normalize_lon_lb (lon : K) : -180 ≤ normalize_lon lon := by
  unfold normalize_lon
  have h1 : ((⌊(lon + 180) / 360⌋ : ℤ) : K) ≤ (lon + 180) / 360 := Int.floor_le _
  nlinarith [h1]

theorem normalize_lon_ub (lon : K) : normalize_lon lon < 180 := by
  unfold normalize_lon
  have h2 : (lon + 180) / 360 < (⌊(lon + 180) / 360⌋ : ℤ) + 1 := Int.lt_floor_add_one _
  nlinarith [h2]

theorem normalize_lon_sub_int (lon : K) :
    lon - normalize_lon lon = 360 * (⌊(lon + 180) / 360⌋ : ℤ) := by
  unfold normalize_lon; ring

theorem normalize_lon_eq_self {x : K} (h1 : -180 ≤ x) (h2 : x < 180) :
    normalize_lon x = x := by
  unfold normalize_lon
  have hf : ⌊(x + 180) / 360⌋ = 0 := by
    rw [Int.floor_eq_zero_iff]
    constructor
    · apply div_nonneg (by linarith) (by norm_num)
    · rw [div_lt_one (by norm_num : (0 : K) < 360)]; linarith
  rw [hf]; push_cast; ring

theorem normalize_lon_add_int_mul (x : K) (c : ℤ) :
    normalize_lon (x + 360 * (c : K)) = normalize_lon x := by
  unfold normalize_lon
  have hdiv : (x + 360 * (c : K) + 180) / 360 = (x + 180) / 360 + (c : K) := by
    field_simp; ring
  rw [hdiv]
  have hc : ((x + 180) / 360 + (c : K)) = ((x + 180) / 360 + (c : ℤ)) := by norm_cast
  rw [hc, Int.floor_add_int]
  push_cast; ring

theorem normalize_lon_idem (x : K) :
    normalize_lon (normalize_lon x) = normalize_lon x :=
  normalize_lon_eq_self (normalize_lon_lb x) (normalize_lon_ub x)

end NormalizeLemmas

/-- C2: for every real longitude, `normalize_lon` computes
`((lon + 180) mod 360) - 180` where the `mod` is the non-negative remainder
(`0 ≤ (lon + 180) - 360⌊(lon + 180)/360⌋ < 360`); consequently the result
lies in `[-180, 180)` and differs from the input by an integer multiple of
360 (congruence modulo 360). -/
theorem normalize_lon_formula_range_congruence (lon : ℝ) :
    0 ≤ (lon + 180) - 360 * (⌊(lon + 180) / 360⌋ : ℤ) ∧
    (lon + 180) - 360 * (⌊(lon + 180) / 360⌋ : ℤ) < 360 ∧
    normalize_lon lon = ((lon + 180) - 360 * (⌊(lon + 180) / 360⌋ : ℤ)) - 180 ∧
    -180 ≤ normalize_lon lon ∧ normalize_lon lon < 180 ∧
    ∃ k : ℤ, lon - normalize_lon lon = 360 * (k : ℝ) := by
  refine ⟨?_, ?_, rfl, normalize_lon_lb lon, normalize_lon_ub lon,
    ⟨⌊(lon + 180) / 360⌋, normalize_lon_sub_int lon⟩⟩
  · have h1 : ((⌊(lon + 180) / 360⌋ : ℤ) : ℝ) ≤ (lon + 180) / 360 := Int.floor_le _
    nlinarith [h1]
  · have h2 : (lon + 180) / 360 < (⌊(lon + 180) / 360⌋ : ℤ) + 1 := Int.lt_floor_add_one _
    nlinarith [h2]

/-- C5: `antipode` is an involution on valid points: for latitude in
`[-90, 90]` and longitude in `[-180, 180)` applying `antipode` twice gives
back exactly the original point (so in particular within any floating
tolerance). -/
theorem antipode_involution (lat lon : ℝ)
    (hlat1 : -90 ≤ lat) (hlat2 : lat ≤ 90)
    (hlon1 : -180 ≤ lon) (hlon2 : lon < 180) :
    antipode (antipode lat lon).1 (antipode lat lon).2 = (lat, lon) := by
  unfold antipode
  obtain ⟨k, hk⟩ : ∃ k : ℤ, (lon + 180) - normalize_lon (lon + 180) = 360 * (k : ℝ) :=
    ⟨⌊(lon + 180 + 180) / 360⌋, normalize_lon_sub_int (lon + 180)⟩
  have hrepr : normalize_lon (lon + 180) + 180 = lon + 360 * ((1 - k : ℤ) : ℝ) := by
    push_cast; linarith
  simp only [Prod.mk.injEq]
  constructor
  · ring
  · rw [hrepr, normalize_lon_add_int_mul lon (1 - k)]
    exact normalize_lon_eq_self hlon1 hlon2

/-- Witness for C5 at the documented concrete scenario: the point
`(34, -6)` in northern Morocco; its antipode is `(-34, 174)` and applying
`antipode` twice returns `(34, -6)`. -/
theorem antipode_involution_witness :
    (-90 ≤ (34 : ℝ) ∧ (34 : ℝ) ≤ 90 ∧ -180 ≤ (-6 : ℝ) ∧ (-6 : ℝ) < 180) ∧
    antipode (antipode (34 : ℝ) (-6)).1 (antipode (34 : ℝ) (-6)).2 = (34, -6) :=
  ⟨by norm_num, antipode_involution 34 (-6) (by norm_num) (by norm_num) (by norm_num)
    (by norm_num)⟩

/-- C4 counterexample: the code performs no input validation.  The latitude
200 is outside `[-90, 90]`, yet `antipode` raises no error and returns the
out-of-range point `(-200, -180)` instead of rejecting the input. -/
theorem antipode_accepts_invalid_latitude :
    antipode (200 : ℚ) 0 = (-200, -180) ∧ ¬ (-90 ≤ (antipode (200 : ℚ) 0).1) := by
  have h : antipode (200 : ℚ) 0 = (-200, -180) := by
    unfold antipode normalize_lon
    rw [show ((0 : ℚ) + 180 + 180) / 360 = 1 by norm_num, Int.floor_one]
    norm_num
  exact ⟨h, by rw [h]; norm_num⟩


/-- Earth radius in meters, constant `R` of `src/k.py`. -/
noncomputable def R : ℝ := 6371000

/-- Python's `math.radians`. -/
noncomputable def radians (d : ℝ) : ℝ := d * (Real.pi / 180)

/-- Python's `math.degrees`. -/
noncomputable def degrees (x : ℝ) : ℝ := x * (180 / Real.pi)

theorem radians_degrees (x : ℝ) : radians (degrees x) = x := by
  unfold radians degrees
  field_simp

theorem degrees_radians (x : ℝ) : degrees (radians x) = x := by
  unfold radians degrees
  field_simp

/-- Python's `math.atan2 y x`: the angle of the vector `(x, y)` in
`(-pi, pi]`, with `atan2 0 0 = 0`. -/
noncomputable def arctan2 (y x : ℝ) : ℝ :=
  if 0 < x then Real.arctan (y / x)
  else if x < 0 then
    (if 0 ≤ y then Real.arctan (y / x) + Real.pi else Real.arctan (y / x) - Real.pi)
  else
    (if 0 < y then Real.pi / 2 else if y < 0 then -(Real.pi / 2) else 0)

/-- `destination_point` from `src/k.py`: starting from `(lat_deg, lon_deg)`,
travel `distance_m` meters at initial bearing `bearing_deg` on the sphere of
radius `R`; returns `(latitude, longitude)` in degrees.  The longitude is
returned exactly as computed, without normalization. -/
noncomputable def destination_point (lat_deg lon_deg bearing_deg distance_m : ℝ) : ℝ × ℝ :=
  let lat := radians lat_deg
  let lon := radians lon_deg
  let br := radians bearing_deg
  let dR := distance_m / R
  let lat2 := Real.arcsin (Real.sin lat * Real.cos dR +
    Real.cos lat * Real.sin dR * Real.cos br)
  let lon2 := lon + arctan2 (Real.sin br * Real.sin dR * Real.cos lat)
    (Real.cos dR - Real.sin lat * Real.sin lat2)
  (degrees lat2, degrees lon2)

/-- C3 (amended part): the latitude returned by `destination_point` always
lies in `[-90, 90]`, for every input whatsoever, because it is
`degrees (arcsin _)` and `arcsin` has range `[-pi/2, pi/2]`. -/
theorem destination_point_lat_in_range (lat_deg lon_deg bearing_deg distance_m : ℝ) :
    -90 ≤ (destination_point lat_deg lon_deg bearing_deg distance_m).1 ∧
    (destination_point lat_deg lon_deg bearing_deg distance_m).1 ≤ 90 := by
  unfold destination_point degrees
  have hpi : (0 : ℝ) < 180 / Real.pi := by positivity
  have h1 := Real.neg_pi_div_two_le_arcsin (Real.sin (radians lat_deg) *
    Real.cos (distance_m / R) + Real.cos (radians lat_deg) * Real.sin (distance_m / R) *
    Real.cos (radians bearing_deg))
  have h2 := Real.arcsin_le_pi_div_two (Real.sin (radians lat_deg) *
    Real.cos (distance_m / R) + Real.cos (radians lat_deg) * Real.sin (distance_m / R) *
    Real.cos (radians bearing_deg))
  have hval : (Real.pi / 2) * (180 / Real.pi) = 90 := by
    field_simp
    ring
  constructor
  · have := mul_le_mul_of_nonneg_right h1 hpi.le
    simpa [hval, neg_mul] using this
  · have := mul_le_mul_of_nonneg_right h2 hpi.le
    simpa [hval] using this

/-- C3 counterexample: `destination_point` does not normalize the longitude
it returns.  Travelling a quarter of the Earth circumference due east from
`(0, 100)` (a valid origin, non-negative distance) yields longitude 190,
which is outside `[-180, 180)`. -/
theorem destination_point_longitude_not_normalized :
    0 ≤ 6371000 * (Real.pi / 2) ∧
    (destination_point 0 100 90 (6371000 * (Real.pi / 2))).2 = 190 ∧
    ¬ (-180 ≤ (destination_point 0 100 90 (6371000 * (Real.pi / 2))).2 ∧
       (destination_point 0 100 90 (6371000 * (Real.pi / 2))).2 < 180) := by
  have h0 : radians 0 = 0 := by unfold radians; ring
  have h90 : radians 90 = Real.pi / 2 := by unfold radians; ring
  have hdR : 6371000 * (Real.pi / 2) / R = Real.pi / 2 := by
    unfold R
    field_simp
    ring
  have harct : arctan2 1 0 = Real.pi / 2 := by
    unfold arctan2
    norm_num
  have hkey : (destination_point 0 100 90 (6371000 * (Real.pi / 2))).2 = 190 := by
    simp only [destination_point, h0, h90, hdR, Real.sin_zero, Real.cos_zero,
      Real.sin_pi_div_two, Real.cos_pi_div_two, zero_mul, one_mul, mul_one, mul_zero,
      add_zero, zero_add, zero_sub, sub_zero, Real.arcsin_zero, neg_zero]
    rw [harct]
    unfold degrees radians
    field_simp
    ring
  refine ⟨by positivity, hkey, ?_⟩
  rw [hkey]
  norm_num

/-- The seam-unwrapping adjustment of `circle_polygon_coords` in `src/k.py`:
on the first iteration (`prev_lon is None`) the normalized longitude is kept;
afterwards, if it differs from the previous (already adjusted) longitude by
more than 180, exactly 360 is subtracted when it is greater and added when it
is smaller. -/
noncomputable def seam_adjust (prev : Option ℝ) (lon2 : ℝ) : ℝ :=
  match prev with
  | none => lon2
  | some p => if |lon2 - p| > 180 then (if lon2 > p then lon2 - 360 else lon2 + 360) else lon2

/-- The first (reachable) loop of `circle_polygon_coords`: `k` remaining
iterations, current loop index `i`, carried `prev_lon`.  Each iteration
computes the destination point at bearing `i * step`, normalizes its
longitude, applies the seam adjustment and appends `[lon, lat]`. -/
noncomputable def ring_aux (dest : ℝ → ℝ × ℝ) (step : ℝ) :
    ℕ → ℕ → Option ℝ → List (ℝ × ℝ)
  | 0, _, _ => []
  | k + 1, i, prev =>
      (seam_adjust prev (normalize_lon (dest ((i : ℝ) * step)).2), (dest ((i : ℝ) * step)).1)
        :: ring_aux dest step k (i + 1)
            (some (seam_adjust prev (normalize_lon (dest ((i : ℝ) * step)).2)))

/-- The list built by the first loop of `circle_polygon_coords` for
`n_points = n`: bearings `i * (360 / n)` for `i = 0, ..., n`. -/
noncomputable def circle_loop1 (lat lon radius_m : ℝ) (n : ℕ) : List (ℝ × ℝ) :=
  ring_aux (fun br => destination_point lat lon br radius_m) (360 / (n : ℝ)) (n + 1) 0 none

/-- The value the second (dead) loop of `circle_polygon_coords`
(lines 69-73 of `src/k.py`) would return if it were ever executed: it
appends to the already-built `coords` a second batch of `n + 1` points whose
longitudes are normalized but not seam-adjusted. -/
noncomputable def circle_loop2_dead (lat lon radius_m : ℝ) (n : ℕ)
    (coords : List (ℝ × ℝ)) : List (ℝ × ℝ) :=
  coords ++ (List.range (n + 1)).map (fun i =>
    (normalize_lon (destination_point lat lon ((i : ℝ) * (360 / (n : ℝ))) radius_m).2,
     (destination_point lat lon ((i : ℝ) * (360 / (n : ℝ))) radius_m).1))

/-- Sequencing of `return` statements: a Python function body that reaches
several `return` statements yields the value of the first one executed. -/
def first_return {β : Type} (rets : List β) : Option β := rets.head?

/-- `circle_polygon_coords` from `src/k.py`.  For `n_points = 0` the line
`step = 360.0 / n_points` raises `ZeroDivisionError` before any coordinate
is produced, modeled by `none`.  Otherwise the body runs the first loop,
returns it, and never reaches the trailing second loop; both `return`
statements are modeled in source order through `first_return`. -/
noncomputable def circle_polygon_coords (lat lon radius_m : ℝ) (n_points : ℕ) :
    Option (List (ℝ × ℝ)) :=
  if n_points = 0 then none
  else first_return [circle_loop1 lat lon radius_m n_points,
    circle_loop2_dead lat lon radius_m n_points (circle_loop1 lat lon radius_m n_points)]

/-- The same function with the unreachable trailing block deleted. -/
noncomputable def circle_polygon_coords_trimmed (lat lon radius_m : ℝ) (n_points : ℕ) :
    Option (List (ℝ × ℝ)) :=
  if n_points = 0 then none
  else first_return [circle_loop1 lat lon radius_m n_points]

theorem circle_polygon_coords_eq (lat lon radius_m : ℝ) (n_points : ℕ) :
    circle_polygon_coords lat lon radius_m n_points =
      if n_points = 0 then none else some (circle_loop1 lat lon radius_m n_points) := by
  unfold circle_polygon_coords first_return
  rfl

/-- C9: the code block after the first `return` of `circle_polygon_coords`
is unreachable for every input, so the function is extensionally equal to
the variant with that block removed; its result is determined entirely by
the first loop. -/
theorem circle_polygon_dead_code_equiv (lat lon radius_m : ℝ) (n_points : ℕ) :
    circle_polygon_coords lat lon radius_m n_points =
      circle_polygon_coords_trimmed lat lon radius_m n_points := by
  unfold circle_polygon_coords circle_polygon_coords_trimmed first_return
  rfl

theorem seam_adjust_cases (prev : Option ℝ) (s : ℝ) :
    ∃ c : ℤ, seam_adjust prev s = s + 360 * (c : ℝ) := by
  cases prev with
  | none => exact ⟨0, by simp [seam_adjust]⟩
  | some p =>
    by_cases h1 : |s - p| > 180
    · by_cases h2 : s > p
      · exact ⟨-1, by simp only [seam_adjust, if_pos h1, if_pos h2]; push_cast; ring⟩
      · exact ⟨1, by simp only [seam_adjust, if_pos h1, if_neg h2]; push_cast; ring⟩
    · exact ⟨0, by simp only [seam_adjust, if_neg h1]; push_cast; ring⟩

theorem ring_aux_length (dest : ℝ → ℝ × ℝ) (step : ℝ) :
    ∀ (k i : ℕ) (prev : Option ℝ), (ring_aux dest step k i prev).length = k := by
  intro k
  induction k with
  | zero => intro i prev; simp [ring_aux]
  | succ k ih => intro i prev; simp [ring_aux, ih]

theorem ring_aux_ne_nil (dest : ℝ → ℝ × ℝ) (step : ℝ) (k i : ℕ) (prev : Option ℝ) :
    ring_aux dest step (k + 1) i prev ≠ [] := by
  simp [ring_aux]

theorem ring_aux_mem (dest : ℝ → ℝ × ℝ) (step : ℝ) :
    ∀ (k i : ℕ) (prev : Option ℝ) (p : ℝ × ℝ), p ∈ ring_aux dest step k i prev →
      ∃ j : ℕ, i ≤ j ∧ j < i + k ∧ ∃ c : ℤ,
        p = (normalize_lon (dest ((j : ℝ) * step)).2 + 360 * (c : ℝ),
             (dest ((j : ℝ) * step)).1) := by
  intro k
  induction k with
  | zero => intro i prev p hp; simp [ring_aux] at hp
  | succ k ih =>
    intro i prev p hp
    rw [ring_aux, List.mem_cons] at hp
    rcases hp with h | h
    · obtain ⟨c, hc⟩ := seam_adjust_cases prev (normalize_lon (dest ((i : ℝ) * step)).2)
      exact ⟨i, le_refl i, by omega, c, by rw [h, hc]⟩
    · obtain ⟨j, hj1, hj2, c, hc⟩ := ih (i + 1) _ p h
      exact ⟨j, by omega, by omega, c, hc⟩

theorem ring_aux_head (dest : ℝ → ℝ × ℝ) (step : ℝ) (k i : ℕ) :
    (ring_aux dest step (k + 1) i none).head? =
      some (normalize_lon (dest ((i : ℝ) * step)).2, (dest ((i : ℝ) * step)).1) := by
  simp [ring_aux, seam_adjust]

theorem list_getLast_cons_of_ne_nil {α : Type} (a : α) (l : List α) (h : l ≠ []) :
    (a :: l).getLast? = l.getLast? := by
  cases l with
  | nil => exact absurd rfl h
  | cons b t => exact List.getLast?_cons_cons

theorem ring_aux_getLast (dest : ℝ → ℝ × ℝ) (step : ℝ) :
    ∀ (k i : ℕ) (prev : Option ℝ), k ≠ 0 →
      ∃ c : ℤ, (ring_aux dest step k i prev).getLast? =
        some (normalize_lon (dest (((i + k - 1 : ℕ) : ℝ) * step)).2 + 360 * (c : ℝ),
              (dest (((i + k - 1 : ℕ) : ℝ) * step)).1) := by
  intro k
  induction k with
  | zero => intro i prev h; exact absurd rfl h
  | succ k ih =>
    intro i prev _
    cases k with
    | zero =>
      obtain ⟨c, hc⟩ := seam_adjust_cases prev (normalize_lon (dest ((i : ℝ) * step)).2)
      refine ⟨c, ?_⟩
      simp [ring_aux, hc]
    | succ m =>
      obtain ⟨c, hc⟩ := ih (i + 1)
        (some (seam_adjust prev (normalize_lon (dest ((i : ℝ) * step)).2))) (by omega)
      refine ⟨c, ?_⟩
      have hidx : i + 1 + (m + 1) - 1 = i + (m + 1 + 1) - 1 := by omega
      rw [hidx] at hc
      rw [ring_aux, list_getLast_cons_of_ne_nil _ _ (ring_aux_ne_nil dest step m (i + 1) _)]
      exact hc

/-- C10: `circle_polygon_coords` is total only for `n_points ≥ 1`.  For
`n_points = 0` the division `step = 360.0 / n_points` fails before any
coordinate is produced (modeled by `none`); for every `n_points ≥ 1` it
terminates normally with exactly `n_points + 1` coordinate pairs, each in
`[longitude, latitude]` order (first component a seam-adjusted normalized
longitude of a destination point, second component its latitude). -/
theorem circle_polygon_total_iff_pos (lat lon radius_m : ℝ) (n : ℕ) :
    (n = 0 → circle_polygon_coords lat lon radius_m n = none) ∧
    (1 ≤ n → ∃ l, circle_polygon_coords lat lon radius_m n = some l ∧ l.length = n + 1 ∧
      ∀ p ∈ l, ∃ j : ℕ, j ≤ n ∧ ∃ c : ℤ,
        p = (normalize_lon (destination_point lat lon ((j : ℝ) * (360 / (n : ℝ))) radius_m).2
              + 360 * (c : ℝ),
             (destination_point lat lon ((j : ℝ) * (360 / (n : ℝ))) radius_m).1)) := by
  constructor
  · intro h
    rw [circle_polygon_coords_eq, if_pos h]
  · intro h
    refine ⟨circle_loop1 lat lon radius_m n, ?_, ring_aux_length _ _ _ _ _, ?_⟩
    · rw [circle_polygon_coords_eq, if_neg (by omega)]
    · intro p hp
      obtain ⟨j, hj1, hj2, c, hc⟩ := ring_aux_mem _ _ (n + 1) 0 none p hp
      exact ⟨j, by omega, c, hc⟩

/-- Witness for C10: at `n_points = 0` the result is `none`; at
`n_points = 5` the result is a list of 6 pairs. -/
theorem circle_polygon_total_iff_pos_witness :
    circle_polygon_coords 0 0 1 0 = none ∧
    (1 ≤ 5 ∧ ∃ l, circle_polygon_coords 0 0 1 5 = some l ∧ l.length = 5 + 1 ∧
      ∀ p ∈ l, ∃ j : ℕ, j ≤ 5 ∧ ∃ c : ℤ,
        p = (normalize_lon (destination_point 0 0 ((j : ℝ) * (360 / ((5 : ℕ) : ℝ))) 1).2
              + 360 * (c : ℝ),
             (destination_point 0 0 ((j : ℝ) * (360 / ((5 : ℕ) : ℝ))) 1).1)) :=
  ⟨(circle_polygon_total_iff_pos 0 0 1 0).1 rfl,
   by norm_num, (circle_polygon_total_iff_pos 0 0 1 5).2 (by norm_num)⟩

/-- C4 (amended): the core performs no input validation.  Even on malformed
input — negative radius or latitude outside `[-90, 90]` — the polygon
builder does not reject: it computes a full ring of `n + 1` points. -/
theorem circle_polygon_no_input_validation (lat lon radius_m : ℝ) (n : ℕ)
    (hbad : radius_m < 0 ∨ lat < -90 ∨ 90 < lat) (hn : 1 ≤ n) :
    ∃ l, circle_polygon_coords lat lon radius_m n = some l ∧ l.length = n + 1 := by
  refine ⟨circle_loop1 lat lon radius_m n, ?_, ring_aux_length _ _ _ _ _⟩
  rw [circle_polygon_coords_eq, if_neg (by omega)]

/-- Witness for C4 (amended): latitude 200 is malformed, yet a 4-point ring
is computed. -/
theorem circle_polygon_no_input_validation_witness :
    ((5 : ℝ) < 0 ∨ (200 : ℝ) < -90 ∨ 90 < (200 : ℝ)) ∧ 1 ≤ 3 ∧
    ∃ l, circle_polygon_coords 200 0 5 3 = some l ∧ l.length = 3 + 1 :=
  ⟨Or.inr (Or.inr (by norm_num)), by norm_num,
   circle_polygon_no_input_validation 200 0 5 3 (Or.inr (Or.inr (by norm_num)))
     (by norm_num)⟩

/-- C6 counterexample: for `nPoints = 0` the claim fails — the division by
zero aborts the function, no ring (of length 1) is returned at all. -/
theorem circle_polygon_coords_zero_points_none :
    circle_polygon_coords (0 : ℝ) 0 1000 0 = none := by
  rw [circle_polygon_coords_eq]
  rfl

/-- The spherical formulas are 360-degree periodic in the bearing, so the
destination at bearing 360 coincides with the destination at bearing 0. -/
theorem destination_point_bearing_360 (lat lon radius_m : ℝ) :
    destination_point lat lon 360 radius_m = destination_point lat lon 0 radius_m := by
  unfold destination_point
  have h360 : radians 360 = 2 * Real.pi := by unfold radians; ring
  have h0 : radians 0 = 0 := by unfold radians; ring
  simp only [h360, h0, Real.sin_two_pi, Real.cos_two_pi, Real.sin_zero, Real.cos_zero]

/-- C6 (amended): for every center and radius and every `nPoints ≥ 1`, the
loop of `circle_polygon_coords` runs `nPoints + 1` iterations (bearings 0
through 360 degrees) and the first and last points of the returned ring are
identical after normalization of their longitudes (`nPoints = 0` instead
aborts with a division-by-zero before the loop). -/
theorem circle_polygon_ring_closed (lat lon radius_m : ℝ) (n : ℕ) (hn : 1 ≤ n) :
    ∃ l, circle_polygon_coords lat lon radius_m n = some l ∧ l.length = n + 1 ∧
      ∃ p q, l.head? = some p ∧ l.getLast? = some q ∧
        q.2 = p.2 ∧ normalize_lon q.1 = normalize_lon p.1 := by
  have hne : (n : ℝ) ≠ 0 := Nat.cast_ne_zero.mpr (by omega)
  refine ⟨circle_loop1 lat lon radius_m n, ?_, ring_aux_length _ _ _ _ _, ?_⟩
  · rw [circle_polygon_coords_eq, if_neg (by omega)]
  · have hhead := ring_aux_head (fun br => destination_point lat lon br radius_m)
      (360 / (n : ℝ)) n 0
    obtain ⟨c, hlast⟩ := ring_aux_getLast (fun br => destination_point lat lon br radius_m)
      (360 / (n : ℝ)) (n + 1) 0 none (by omega)
    have hidx : (0 + (n + 1) - 1 : ℕ) = n := by omega
    rw [hidx] at hlast
    have hbn : ((n : ℕ) : ℝ) * (360 / (n : ℝ)) = 360 := by field_simp
    rw [hbn] at hlast
    simp only [Nat.cast_zero, zero_mul] at hhead
    simp only [destination_point_bearing_360] at hlast
    exact ⟨_, _, hhead, hlast, rfl, normalize_lon_add_int_mul _ c⟩

/-- Witness for C6 (amended) at center `(20, 0)`, radius 50000 and
`nPoints = 2`. -/
theorem circle_polygon_ring_closed_witness :
    1 ≤ 2 ∧ ∃ l, circle_polygon_coords 20 0 50000 2 = some l ∧ l.length = 2 + 1 ∧
      ∃ p q, l.head? = some p ∧ l.getLast? = some q ∧
        q.2 = p.2 ∧ normalize_lon q.1 = normalize_lon p.1 :=
  ⟨by norm_num, circle_polygon_ring_closed 20 0 50000 2 (by norm_num)⟩

/-- From the north pole, every bearing gives the same destination: latitude
`90 - degrees(d/R)` and longitude 0 (the formula yields `atan2 0 0 = 0`).
No special-case branch is involved. -/
theorem destination_point_pole (br : ℝ) :
    destination_point 90 0 br 100000 =
      (90 - 100000 / 6371000 * (180 / Real.pi), 0) := by
  have h90 : radians 90 = Real.pi / 2 := by unfold radians; ring
  have h0 : radians 0 = 0 := by unfold radians; ring
  have harcsin : Real.arcsin (Real.cos (100000 / 6371000 : ℝ)) =
      Real.pi / 2 - 100000 / 6371000 := by
    rw [← Real.sin_pi_div_two_sub]
    refine Real.arcsin_sin (by nlinarith [Real.pi_gt_three]) (by nlinarith [Real.pi_gt_three])
  have hats : arctan2 0 0 = 0 := by unfold arctan2; norm_num
  unfold destination_point R
  simp only [h90, h0, Real.sin_pi_div_two, Real.cos_pi_div_two, one_mul, mul_zero, zero_mul,
    zero_add, add_zero]
  rw [harcsin, Real.sin_pi_div_two_sub, sub_self, hats]
  unfold degrees
  simp only [Prod.mk.injEq, zero_mul]
  constructor
  · field_simp
    ring
  · trivial

/-- When every destination has longitude 0, the ring loop returns
`k` copies of `(0, la)`: the normalization fixes 0 and the seam adjustment
never fires. -/
theorem ring_aux_const_lon_zero (la step : ℝ) (dest : ℝ → ℝ × ℝ)
    (hdest : ∀ br, dest br = (la, 0)) :
    ∀ (k i : ℕ) (prev : Option ℝ), (prev = none ∨ prev = some 0) →
      ring_aux dest step k i prev = List.replicate k ((0 : ℝ), la) := by
  intro k
  induction k with
  | zero => intro i prev _; simp [ring_aux]
  | succ k ih =>
    intro i prev hprev
    have hadj : seam_adjust prev 0 = 0 := by
      rcases hprev with h | h <;> subst h
      · rfl
      · simp [seam_adjust]
    rw [ring_aux]
    simp only [hdest]
    rw [show normalize_lon (0 : ℝ) = 0 from normalize_lon_eq_self (by norm_num) (by norm_num)]
    rw [hadj, ih (i + 1) (some 0) (Or.inr rfl)]
    simp [List.replicate_succ]

/-- C8: the pole case `circle_polygon_coords 90 0 100000 8` produces exactly
9 points, each with longitude 0 (finite) and latitude
`90 - (100000/6371000) * (180/pi)`, strictly less than 90; the computation
is well-defined with no special-case branch for the pole. -/
theorem circle_polygon_pole_case :
    circle_polygon_coords 90 0 100000 8 =
      some (List.replicate 9 ((0 : ℝ), 90 - 100000 / 6371000 * (180 / Real.pi))) ∧
    90 - 100000 / 6371000 * (180 / Real.pi) < 90 := by
  constructor
  · rw [circle_polygon_coords_eq, if_neg (by norm_num)]
    congr 1
    exact ring_aux_const_lon_zero _ _ _ (fun br => destination_point_pole br) 9 0 none
      (Or.inl rfl)
  · have hp : (0 : ℝ) < 100000 / 6371000 * (180 / Real.pi) := by positivity
    linarith

/-- Great-circle distance between two points given in degrees, over the
sphere of radius `R`, via the spherical law of cosines.  This is the metric
of the testable property in the specification; the source contains no
distance function of its own. -/
noncomputable def great_circle_dist (lat1 lon1 lat2 lon2 : ℝ) : ℝ :=
  R * Real.arccos (Real.sin (radians lat1) * Real.sin (radians lat2) +
    Real.cos (radians lat1) * Real.cos (radians lat2) *
      Real.cos (radians lon2 - radians lon1))

theorem destination_point_fst (lat lon br d : ℝ) :
    (destination_point lat lon br d).1 =
      degrees (Real.arcsin (Real.sin (radians lat) * Real.cos (d / R) +
        Real.cos (radians lat) * Real.sin (d / R) * Real.cos (radians br))) := rfl

theorem destination_point_snd (lat lon br d : ℝ) :
    (destination_point lat lon br d).2 =
      degrees (radians lon + arctan2
        (Real.sin (radians br) * Real.sin (d / R) * Real.cos (radians lat))
        (Real.cos (d / R) - Real.sin (radians lat) * Real.sin (Real.arcsin
          (Real.sin (radians lat) * Real.cos (d / R) +
           Real.cos (radians lat) * Real.sin (d / R) * Real.cos (radians br))))) := rfl

theorem cos_arctan2 (y x : ℝ) (h : ¬ (x = 0 ∧ y = 0)) :
    Real.cos (arctan2 y x) = x / Real.sqrt (x ^ 2 + y ^ 2) := by
  have hsq : 0 < x ^ 2 + y ^ 2 := by
    rcases not_and_or.mp h with hx | hy
    · have h1 : 0 < x ^ 2 := by positivity
      nlinarith [sq_nonneg y]
    · have h1 : 0 < y ^ 2 := by positivity
      nlinarith [sq_nonneg x]
  have hs0 : 0 < Real.sqrt (x ^ 2 + y ^ 2) := Real.sqrt_pos.mpr hsq
  unfold arctan2
  rcases lt_trichotomy x 0 with hx | hx | hx
  · have hdiv : Real.sqrt (1 + (y / x) ^ 2) = Real.sqrt (x ^ 2 + y ^ 2) / (-x) := by
      rw [show (1 : ℝ) + (y / x) ^ 2 = (x ^ 2 + y ^ 2) / x ^ 2 by
        field_simp [ne_of_lt hx]]
      rw [Real.sqrt_div (by positivity) (x ^ 2), Real.sqrt_sq_eq_abs, abs_of_neg hx]
    rw [if_neg (by linarith), if_pos hx]
    by_cases hy : 0 ≤ y
    · rw [if_pos hy, Real.cos_add_pi, Real.cos_arctan, hdiv, one_div_div]
      field_simp
    · rw [if_neg hy, Real.cos_sub_pi, Real.cos_arctan, hdiv, one_div_div]
      field_simp
  · subst hx
    rw [if_neg (lt_irrefl 0), if_neg (lt_irrefl 0)]
    rcases lt_trichotomy y 0 with hy | hy | hy
    · rw [if_neg (by linarith), if_pos hy, Real.cos_neg, Real.cos_pi_div_two, zero_div]
    · exact absurd ⟨rfl, hy⟩ h
    · rw [if_pos hy, Real.cos_pi_div_two, zero_div]
  · rw [if_pos hx, Real.cos_arctan]
    rw [show (1 : ℝ) + (y / x) ^ 2 = (x ^ 2 + y ^ 2) / x ^ 2 by field_simp [ne_of_gt hx]]
    rw [Real.sqrt_div (by positivity) (x ^ 2), Real.sqrt_sq_eq_abs, abs_of_pos hx,
      one_div_div]

/-- Algebraic core: `1 - s^2` decomposes as a sum of two squares, where `s`
is the sine of the destination latitude. -/
theorem dest_one_sub_s_sq (p q t : ℝ) :
    1 - (Real.sin p * Real.cos q + Real.cos p * Real.sin q * Real.cos t) ^ 2 =
      (Real.cos p * Real.cos q - Real.sin p * Real.sin q * Real.cos t) ^ 2 +
      (Real.sin q * Real.sin t) ^ 2 := by
  have hp := Real.sin_sq_add_cos_sq p
  have hq := Real.sin_sq_add_cos_sq q
  have ht := Real.sin_sq_add_cos_sq t
  linear_combination (-(Real.cos q ^ 2 + Real.sin q ^ 2 * Real.cos t ^ 2)) * hp +
    (-1 : ℝ) * hq + (-(Real.sin q ^ 2)) * ht

/-- Spherical law of cosines applied to a destination point: for a start
colatitude with non-negative cosine, the arccos argument of the distance
formula evaluated at the destination collapses to `cos` of the angular
distance. -/
theorem dest_arccos_arg (p q t : ℝ) (hb : 0 ≤ Real.cos p) :
    Real.sin p * (Real.sin p * Real.cos q + Real.cos p * Real.sin q * Real.cos t) +
      Real.cos p * Real.sqrt (1 -
        (Real.sin p * Real.cos q + Real.cos p * Real.sin q * Real.cos t) ^ 2) *
        Real.cos (arctan2 (Real.sin t * Real.sin q * Real.cos p)
          (Real.cos q - Real.sin p *
            (Real.sin p * Real.cos q + Real.cos p * Real.sin q * Real.cos t))) =
      Real.cos q := by
  set a := Real.sin p with ha
  set b := Real.cos p with hbdef
  set c := Real.sin q with hcdef
  set d := Real.cos q with hddef
  set e := Real.sin t with hedef
  set f := Real.cos t with hfdef
  have hp2 : a ^ 2 + b ^ 2 = 1 := Real.sin_sq_add_cos_sq p
  have hq2 : c ^ 2 + d ^ 2 = 1 := Real.sin_sq_add_cos_sq q
  have ht2 : e ^ 2 + f ^ 2 = 1 := Real.sin_sq_add_cos_sq t
  set s := a * d + b * c * f with hs
  set x := d - a * s with hx
  set y := e * c * b with hy
  have h1s : 1 - s ^ 2 = (b * d - a * c * f) ^ 2 + (c * e) ^ 2 := by
    rw [hs]
    linear_combination (-(d ^ 2 + c ^ 2 * f ^ 2)) * hp2 + (-1 : ℝ) * hq2 +
      (-(c ^ 2)) * ht2
  have hs2 : s ^ 2 ≤ 1 := by
    nlinarith [h1s, sq_nonneg (b * d - a * c * f), sq_nonneg (c * e)]
  have hnn : 0 ≤ 1 - s ^ 2 := by linarith
  have hxy : x ^ 2 + y ^ 2 = b ^ 2 * (1 - s ^ 2) := by
    rw [hx, hy, hs]
    linear_combination
      (-(2 * b * d * (b * d - a * c * f) - b ^ 2 * (d ^ 2 + c ^ 2 * f ^ 2) +
        d ^ 2 * (1 - a ^ 2 - b ^ 2))) * hp2 + b ^ 2 * hq2 + b ^ 2 * c ^ 2 * ht2
  by_cases hzero : x = 0 ∧ y = 0
  · obtain ⟨hx0, hy0⟩ := hzero
    have hbs : b * Real.sqrt (1 - s ^ 2) = 0 := by
      have hzero2 : b ^ 2 * (1 - s ^ 2) = 0 := by rw [← hxy, hx0, hy0]; ring
      have hsq2 : (b * Real.sqrt (1 - s ^ 2)) ^ 2 = 0 := by
        rw [mul_pow, Real.sq_sqrt hnn]; exact hzero2
      exact pow_eq_zero_iff (two_ne_zero) |>.mp hsq2
    have had : d - a * s = 0 := by rw [← hx, hx0]
    rw [hx0, hy0]
    rw [show arctan2 (0 : ℝ) 0 = 0 by unfold arctan2; norm_num, Real.cos_zero, mul_one]
    rw [hbs]
    linarith
  · rw [cos_arctan2 y x hzero]
    have hsqrt : Real.sqrt (x ^ 2 + y ^ 2) = b * Real.sqrt (1 - s ^ 2) := by
      rw [hxy, Real.sqrt_mul (sq_nonneg b) _, Real.sqrt_sq hb]
    rw [hsqrt]
    have hbs : b * Real.sqrt (1 - s ^ 2) ≠ 0 := by
      intro h0
      have hsq2 : (b * Real.sqrt (1 - s ^ 2)) ^ 2 = b ^ 2 * (1 - s ^ 2) := by
        rw [mul_pow, Real.sq_sqrt hnn]
      have hxy0 : x ^ 2 + y ^ 2 = 0 := by
        rw [hxy, ← hsq2, h0]; ring
      have hx2 : x ^ 2 = 0 := le_antisymm (by linarith [sq_nonneg y]) (sq_nonneg x)
      have hy2 : y ^ 2 = 0 := le_antisymm (by linarith [sq_nonneg x]) (sq_nonneg y)
      exact hzero ⟨pow_eq_zero_iff two_ne_zero |>.mp hx2,
        pow_eq_zero_iff two_ne_zero |>.mp hy2⟩
    rw [mul_comm (b * Real.sqrt (1 - s ^ 2)) (x / (b * Real.sqrt (1 - s ^ 2))),
      div_mul_cancel₀ x hbs, hx]
    ring

/-- Normalizing a longitude (in degrees) and shifting by whole turns only
changes the corresponding radian angle by an integer multiple of `2 * pi`. -/
theorem radians_normalized_shift (lon t : ℝ) (c : ℤ) :
    ∃ k : ℤ, radians (normalize_lon (degrees (radians lon + t)) + 360 * (c : ℝ)) -
      radians lon = t + (k : ℝ) * (2 * Real.pi) := by
  obtain ⟨m, hm⟩ : ∃ m : ℤ, degrees (radians lon + t) -
      normalize_lon (degrees (radians lon + t)) = 360 * (m : ℝ) :=
    ⟨_, normalize_lon_sub_int _⟩
  refine ⟨c - m, ?_⟩
  have hrep : normalize_lon (degrees (radians lon + t)) + 360 * (c : ℝ) =
      degrees (radians lon + t) + 360 * ((c - m : ℤ) : ℝ) := by
    push_cast
    linarith
  rw [hrep]
  unfold radians degrees
  field_simp
  ring

/-- Every point reachable from a ring entry — the destination at some
bearing, its longitude normalized and shifted by any whole number of
turns — lies at great-circle distance exactly `r` from the center, for a
valid center latitude and `0 ≤ r ≤ pi * R`. -/
theorem great_circle_dist_dest (lat lon br r : ℝ)
    (hlat1 : -90 ≤ lat) (hlat2 : lat ≤ 90) (hr0 : 0 ≤ r) (hrpi : r ≤ Real.pi * R)
    (c : ℤ) :
    great_circle_dist lat lon (destination_point lat lon br r).1
      (normalize_lon (destination_point lat lon br r).2 + 360 * (c : ℝ)) = r := by
  have hRpos : (0 : ℝ) < R := by unfold R; norm_num
  have hpi180 : (0 : ℝ) ≤ Real.pi / 180 := by positivity
  have hb : 0 ≤ Real.cos (radians lat) := by
    apply Real.cos_nonneg_of_mem_Icc
    constructor
    · unfold radians
      nlinarith [mul_le_mul_of_nonneg_right hlat1 hpi180]
    · unfold radians
      nlinarith [mul_le_mul_of_nonneg_right hlat2 hpi180]
  rw [destination_point_fst, destination_point_snd]
  unfold great_circle_dist
  rw [radians_degrees]
  obtain ⟨k, hk⟩ := radians_normalized_shift lon
    (arctan2 (Real.sin (radians br) * Real.sin (r / R) * Real.cos (radians lat))
      (Real.cos (r / R) - Real.sin (radians lat) * Real.sin (Real.arcsin
        (Real.sin (radians lat) * Real.cos (r / R) +
         Real.cos (radians lat) * Real.sin (r / R) * Real.cos (radians br))))) c
  rw [hk, Real.cos_add_int_mul_two_pi]
  have h1s := dest_one_sub_s_sq (radians lat) (r / R) (radians br)
  have hS2 : (Real.sin (radians lat) * Real.cos (r / R) +
      Real.cos (radians lat) * Real.sin (r / R) * Real.cos (radians br)) ^ 2 ≤ 1 := by
    nlinarith [h1s,
      sq_nonneg (Real.cos (radians lat) * Real.cos (r / R) -
        Real.sin (radians lat) * Real.sin (r / R) * Real.cos (radians br)),
      sq_nonneg (Real.sin (r / R) * Real.sin (radians br))]
  rw [Real.sin_arcsin (by nlinarith [hS2]) (by nlinarith [hS2]), Real.cos_arcsin]
  rw [dest_arccos_arg (radians lat) (r / R) (radians br) hb]
  rw [Real.arccos_cos (div_nonneg hr0 hRpos.le)
    ((div_le_iff₀ hRpos).mpr (by linarith [hrpi]))]
  rw [mul_comm]
  exact div_mul_cancel₀ r (ne_of_gt hRpos)

/-- C7 (amended): for every valid center latitude in `[-90, 90]`, radius
with `0 ≤ radius ≤ pi * R` (within half the Earth circumference) and
`n ≥ 3`, every point of the returned ring lies at great-circle distance
exactly `radius` from the center — in particular within the claimed
`1e-3` relative tolerance. -/
theorem circle_polygon_points_at_distance (lat lon r : ℝ) (n : ℕ) (l : List (ℝ × ℝ))
    (hlat1 : -90 ≤ lat) (hlat2 : lat ≤ 90) (hr0 : 0 ≤ r) (hrpi : r ≤ Real.pi * R)
    (hn : 3 ≤ n) (hl : circle_polygon_coords lat lon r n = some l) :
    ∀ p ∈ l, great_circle_dist lat lon p.2 p.1 = r := by
  rw [circle_polygon_coords_eq, if_neg (by omega)] at hl
  have hl2 : circle_loop1 lat lon r n = l := by
    injection hl
  subst hl2
  intro p hp
  obtain ⟨j, hj1, hj2, c, hc⟩ := ring_aux_mem _ _ (n + 1) 0 none p hp
  subst hc
  exact great_circle_dist_dest lat lon ((j : ℝ) * (360 / (n : ℝ))) r hlat1 hlat2 hr0 hrpi c

/-- Witness for C7 (amended) at center `(0, 0)`, radius 1000000,
`nPoints = 4`. -/
theorem circle_polygon_points_at_distance_witness :
    (-90 ≤ (0 : ℝ)) ∧ ((0 : ℝ) ≤ 90) ∧ (0 ≤ (1000000 : ℝ)) ∧
    ((1000000 : ℝ) ≤ Real.pi * R) ∧ (3 ≤ 4) ∧
    (circle_polygon_coords 0 0 1000000 4 = some (circle_loop1 0 0 1000000 4)) ∧
    ∀ p ∈ circle_loop1 0 0 1000000 4, great_circle_dist 0 0 p.2 p.1 = 1000000 := by
  have hR : (1000000 : ℝ) ≤ Real.pi * R := by
    unfold R
    nlinarith [Real.pi_gt_three]
  have heq : circle_polygon_coords 0 0 1000000 4 = some (circle_loop1 0 0 1000000 4) := by
    rw [circle_polygon_coords_eq]
    norm_num
  exact ⟨by norm_num, by norm_num, by norm_num, hR, by norm_num, heq,
    circle_polygon_points_at_distance 0 0 1000000 4 (circle_loop1 0 0 1000000 4)
      (by norm_num) (by norm_num) (by norm_num) hR (by norm_num) heq⟩

/-- Travelling a full Earth circumference from `(0, 0)` returns to `(0, 0)`
regardless of bearing. -/
theorem destination_point_full_turn (br : ℝ) :
    destination_point 0 0 br (6371000 * (2 * Real.pi)) = (0, 0) := by
  have h0 : radians 0 = 0 := by unfold radians; ring
  have hdr : (6371000 : ℝ) * (2 * Real.pi) / R = 2 * Real.pi := by
    unfold R
    field_simp
  have hat : arctan2 0 1 = 0 := by
    unfold arctan2
    rw [if_pos one_pos]
    norm_num [Real.arctan_zero]
  unfold destination_point
  simp only [h0, hdr, Real.sin_zero, Real.cos_zero, Real.sin_two_pi, Real.cos_two_pi,
    zero_mul, one_mul, mul_zero, mul_one, zero_add, add_zero, sub_zero, Real.arcsin_zero,
    hat]
  unfold degrees
  norm_num

/-- C7 counterexample: a radius of a full Earth circumference is non-negative
(hence valid per the data model, which sets no upper bound), yet every ring
point then coincides with the center, at great-circle distance 0 rather than
within `1e-3` relative error of the radius. -/
theorem circle_polygon_radius_beyond_half_circumference :
    0 ≤ 6371000 * (2 * Real.pi) ∧
    circle_polygon_coords 0 0 (6371000 * (2 * Real.pi)) 4 =
      some (List.replicate 5 ((0 : ℝ), (0 : ℝ))) ∧
    great_circle_dist 0 0 0 0 = 0 ∧
    ¬ (|great_circle_dist 0 0 0 0 - 6371000 * (2 * Real.pi)| ≤
        (1 / 1000) * (6371000 * (2 * Real.pi))) := by
  have h0 : radians 0 = 0 := by unfold radians; ring
  have hdist : great_circle_dist 0 0 0 0 = 0 := by
    unfold great_circle_dist
    rw [h0]
    norm_num [Real.arccos_one]
  refine ⟨by positivity, ?_, hdist, ?_⟩
  · rw [circle_polygon_coords_eq]
    norm_num
    exact ring_aux_const_lon_zero 0 _ _ (fun br => destination_point_full_turn br) 5 0 none
      (Or.inl rfl)
  · rw [hdist]
    have hpos : (0 : ℝ) < 6371000 * (2 * Real.pi) := by positivity
    rw [zero_sub, abs_neg, abs_of_pos hpos]
    intro hcon
    nlinarith
